import Mathlib

set_option linter.unusedVariables false

/-!
Shallow embedding of the vrchive-explorer search pipeline (src/main.go).

The program extracts resource records from parsed HTML trees and streams
those that match a search string.  We model the parsed tree of
golang.org/x/net/html as a rose tree `Node`, pure functions of main.go as
Lean functions with the same names, Go runtime panics (nil dereference,
index out of range) as `Option.none` results, and the output channel as a
list of emitted records together with a flag recording whether
`close(outputChannel)` was reached.
-/

/-- Node kinds of the parsed markup tree (html.NodeType). -/
inductive NType where
  | errorNode
  | textNode
  | documentNode
  | elementNode
  | commentNode
  | doctypeNode
  | rawNode
  deriving DecidableEq, Repr

/-- An attribute key/value pair (html.Attribute; the Namespace field is
never read by the program and is omitted). -/
structure Attribute where
  key : String
  val : String
  deriving DecidableEq, Repr

/-- A parsed markup node (html.Node): kind, data (tag name for elements,
text payload for text nodes), attributes, children in document order. -/
inductive Node where
  | mk (ntype : NType) (data : String) (attr : List Attribute) (children : List Node)

mutual

def nodeDecEq : (a b : Node) → Decidable (a = b)
  | .mk t₁ d₁ a₁ c₁, .mk t₂ d₂ a₂ c₂ =>
    if h₁ : t₁ = t₂ then
      if h₂ : d₁ = d₂ then
        if h₃ : a₁ = a₂ then
          match nodeListDecEq c₁ c₂ with
          | isTrue h₄ => isTrue (by rw [h₁, h₂, h₃, h₄])
          | isFalse h₄ => isFalse (by intro q; injection q; contradiction)
        else isFalse (by intro q; injection q; contradiction)
      else isFalse (by intro q; injection q; contradiction)
    else isFalse (by intro q; injection q; contradiction)

def nodeListDecEq : (as bs : List Node) → Decidable (as = bs)
  | [], [] => isTrue rfl
  | [], _ :: _ => isFalse (by intro q; cases q)
  | _ :: _, [] => isFalse (by intro q; cases q)
  | x :: xs, y :: ys =>
    match nodeDecEq x y with
    | isTrue h =>
      match nodeListDecEq xs ys with
      | isTrue h₂ => isTrue (by rw [h, h₂])
      | isFalse h₂ => isFalse (by intro q; injection q; contradiction)
    | isFalse h => isFalse (by intro q; injection q; contradiction)

end

instance : DecidableEq Node := nodeDecEq

def Node.ntype : Node → NType
  | .mk t _ _ _ => t

def Node.data : Node → String
  | .mk _ d _ _ => d

def Node.attr : Node → List Attribute
  | .mk _ _ a _ => a

def Node.children : Node → List Node
  | .mk _ _ _ c => c

/-- The record type produced by the extractor (type SearchResult). -/
structure SearchResult where
  Name : String
  DownloadLink : String
  SourceLink : String
  deriving DecidableEq, Repr

/-- Whether `sub` is a prefix of `s` (the inner loop of substring search). -/
def listStartsWith : List Char → List Char → Bool
  | _, [] => true
  | [], _ :: _ => false
  | a :: s, b :: t => a == b && listStartsWith s t

/-- Whether `sub` occurs contiguously inside `s` (strings.Contains on the
rune sequence). -/
def listContains : List Char → List Char → Bool
  | [], sub => listStartsWith [] sub
  | c :: rest, sub => listStartsWith (c :: rest) sub || listContains rest sub

/-- strings.HasSuffix on the rune sequence: case-sensitive exact suffix
match (the suffix reversed is a prefix of the string reversed). -/
def strHasSuffix (s suffix : String) : Bool :=
  listStartsWith s.toList.reverse suffix.toList.reverse

/-- strings.ToLower on the rune sequence (modelled with the ASCII case map
of Char.toLower; every class marker and cue word of the program is ASCII). -/
def strToLower (s : String) : List Char :=
  s.toList.map Char.toLower

/-- func hasSearchText (main.go:200): case-insensitive substring test,
both sides lowercased before comparison. -/
def hasSearchText (text searchText : String) : Bool :=
  listContains (strToLower text) (strToLower searchText)

/-- func hasClass (main.go:205): some attribute has key "class" and value
exactly equal to className. -/
def hasClass (n : Node) (className : String) : Bool :=
  n.attr.any (fun a => a.key == "class" && a.val == className)

mutual

/-- func findNodetypeRecursively (main.go:239): collect, in document order,
the element nodes with the given tag; a matching node is returned without
descending into it. -/
def findNodetypeRecursively : Node → String → List Node
  | .mk t d a cs, nodeType =>
    if t == NType.elementNode && d == nodeType then [Node.mk t d a cs]
    else findNodetypeRecursivelyList cs nodeType

def findNodetypeRecursivelyList : List Node → String → List Node
  | [], _ => []
  | c :: cs, nodeType =>
    findNodetypeRecursively c nodeType ++ findNodetypeRecursivelyList cs nodeType

end

mutual

/-- func hasResurivelyText (main.go:253): does some descendant-or-self text
node contain searchText case-insensitively. -/
def hasResurivelyText : Node → String → Bool
  | .mk t d _ cs, searchText =>
    (t == NType.textNode && hasSearchText d searchText) ||
      hasResurivelyTextList cs searchText

def hasResurivelyTextList : List Node → String → Bool
  | [], _ => false
  | c :: cs, searchText =>
    hasResurivelyText c searchText || hasResurivelyTextList cs searchText

end

mutual

/-- func findNodeRecursively (main.go:268): first node, in pre-order, whose
class attribute equals className; the root itself is tested first. -/
def findNodeRecursively : Node → String → Option Node
  | .mk t d a cs, className =>
    if hasClass (.mk t d a cs) className then some (.mk t d a cs)
    else findNodeRecursivelyList cs className

def findNodeRecursivelyList : List Node → String → Option Node
  | [], _ => none
  | c :: cs, className =>
    match findNodeRecursively c className with
    | some r => some r
    | none => findNodeRecursivelyList cs className

end

/-- The inner loop of the title branch of processNode (main.go:287): for
each direct child of the title container carrying the markdown-preserve
class marker, Name is set to the Data of the first child node of that child.
A markdown-preserve child with no child models the nil dereference of
textChild.FirstChild.Data as `none` (a Go runtime panic). -/
def titleChildScan : List Node → String → Option String
  | [], cur => some cur
  | t :: ts, cur =>
    if hasClass t "chatlog__markdown chatlog__markdown-preserve" then
      match t.children with
      | [] => none
      | c :: _ => titleChildScan ts c.data
    else titleChildScan ts cur

/-- The anchor loop of processNode (main.go:309): for each anchor in order,
its first attribute value is read (aContainer.Attr[0].Val; an empty
attribute list models the index-out-of-range panic as `none`), and the
Source/Download fields are overwritten when the descendant text of the
anchor matches the corresponding cue word. -/
def anchorLoop : List Node → String → String → Option (String × String)
  | [], src, dl => some (src, dl)
  | a :: rest, src, dl =>
    match a.attr with
    | [] => none
    | attr0 :: _ =>
      let hrefData := attr0.val
      let src2 := if hasResurivelyText a "Source" then hrefData else src
      let dl2 := if hasResurivelyText a "Download" then hrefData else dl
      anchorLoop rest src2 dl2

/-- The linkContainer computation of processNode (main.go:300): search for
the fields marker first and fall back to the description marker. -/
def linkContainerOf (child : Node) : Option Node :=
  match findNodeRecursively child "chatlog__embed-fields" with
  | some n => some n
  | none => findNodeRecursively child "chatlog__embed-description"

/-- The description/fields branch of processNode (main.go:297): compute the
linkContainer, collect its anchors, and run the anchor loop.  A `none`
linkContainer would make Go dereference a nil node inside
findNodetypeRecursively, modelled as `none` (a panic). -/
def descScan (child : Node) (acc : SearchResult) : Option SearchResult :=
  match linkContainerOf child with
  | none => none
  | some lc =>
    match anchorLoop (findNodetypeRecursively lc "a") acc.SourceLink acc.DownloadLink with
    | none => none
    | some (src, dl) => some { acc with SourceLink := src, DownloadLink := dl }

/-- The child loop of processNode (main.go:284): thread the record being
built through the title branch and the description/fields branch of each
direct child of the embed root.  The guard on the second branch is exactly
the Go expression, where && binds tighter than ||. -/
def extractLoop : List Node → SearchResult → Option SearchResult
  | [], acc => some acc
  | child :: rest, acc =>
    match
      (if hasClass child "chatlog__embed-title" then titleChildScan child.children acc.Name
       else some acc.Name) with
    | none => none
    | some name =>
      let acc1 : SearchResult := { acc with Name := name }
      match
        (if hasClass child "chatlog__embed-description" ||
            (hasClass child "chatlog__embed-fields" && acc1.Name != "") then descScan child acc1
         else some acc1) with
      | none => none
      | some acc2 => extractLoop rest acc2

/-- The record built by processNode (main.go:282-329) before the filter,
starting from the zero value SearchResult{}.  `none` models a panic. -/
def extractResult (doc : Node) : Option SearchResult :=
  extractLoop doc.children { Name := "", DownloadLink := "", SourceLink := "" }

/-- The emission guard of processNode (main.go:332): the record matches if
the search text occurs case-insensitively in one of its three fields. -/
def matchesFilter (r : SearchResult) (searchText : String) : Bool :=
  hasSearchText r.Name searchText || hasSearchText r.SourceLink searchText ||
    hasSearchText r.DownloadLink searchText

/-- Observable outcome of a scan step: records sent on the channel, and
whether a Go panic unwound the scanning goroutine. -/
structure ScanOut where
  emitted : List SearchResult
  panicked : Bool
  deriving DecidableEq, Repr

/-- Sequencing of two scan steps: a panic in the first aborts the scan
before the second runs. -/
def ScanOut.seq (o o2 : ScanOut) : ScanOut :=
  if o.panicked then o else ⟨o.emitted ++ o2.emitted, o2.panicked⟩

/-- func processNode (main.go:281): build the record and send it on the
channel when the filter passes.  `searchText` is the value of the shared
global variable at the moment line 332 reads it (processNode reads the
global, not a parameter). -/
def processNode (doc : Node) (searchText : String) : ScanOut :=
  match extractResult doc with
  | none => ⟨[], true⟩
  | some r => if matchesFilter r searchText then ⟨[r], false⟩ else ⟨[], false⟩

mutual

/-- func processAllItems (main.go:227): pre-order walk; a div whose class
attribute equals the embed marker is handed to processNode, then the walk
descends into the children. -/
def processAllItems : Node → String → ScanOut
  | .mk t d a cs, g =>
    ScanOut.seq
      (if t == NType.elementNode && d == "div" &&
          hasClass (.mk t d a cs) "chatlog__embed-text" then
        processNode (.mk t d a cs) g
      else ⟨[], false⟩)
      (processAllItemsList cs g)

def processAllItemsList : List Node → String → ScanOut
  | [], _ => ⟨[], false⟩
  | c :: cs, g => ScanOut.seq (processAllItems c g) (processAllItemsList cs g)

end

/-- func ParseHTML (main.go:182): `content = none` models a file whose
bytes cannot be read or whose markup fails to parse (early return, nothing
emitted).  The searchText parameter mirrors the Go parameter, which
ParseHTML drops on the floor: processAllItems is called without it and
processNode reads the shared global `g` instead. -/
def ParseHTML (content : Option Node) (searchText : String) (g : String) : ScanOut :=
  match content with
  | none => ⟨[], false⟩
  | some doc => processAllItems doc g

/-- A directory entry as the loader sees it: a file name and, when the
file can be opened, read and parsed, its document tree (`none` covers
os.Open and parse failures, both of which return early). -/
structure FileEntry where
  name : String
  content : Option Node
  deriving DecidableEq

/-- func searchFile (main.go:28): open the file and hand it to ParseHTML;
an open error returns without emitting. -/
def searchFile (f : FileEntry) (searchText : String) (g : String) : ScanOut :=
  ParseHTML f.content searchText g

/-- The file loop of func Search (main.go:50): process, in listing order,
exactly the entries whose name ends in ".html". -/
def searchFilesLoop : List FileEntry → String → String → ScanOut
  | [], _, _ => ⟨[], false⟩
  | f :: fs, snapshot, g =>
    if strHasSuffix f.name ".html" then
      ScanOut.seq (searchFile f snapshot g) (searchFilesLoop fs snapshot g)
    else searchFilesLoop fs snapshot g

/-- Observable outcome of one search request: records sent on the output
channel, and whether close(outputChannel) was executed. -/
structure SearchOut where
  emitted : List SearchResult
  closed : Bool
  deriving DecidableEq, Repr

/-- func Search (main.go:39): `listing = none` models os.ReadDir failing,
in which case Search returns early and close(outputChannel) on line 57 is
never executed.  `searchTextAtStart` is the value the shared global holds
when line 40 copies it; `g` is the value the global holds when processNode
later reads it at the filter (the two differ exactly when the global is
mutated while the scan is in progress).  A panic also skips the close. -/
def Search (listing : Option (List FileEntry)) (searchTextAtStart : String)
    (g : String) : SearchOut :=
  match listing with
  | none => ⟨[], false⟩
  | some files =>
    let o := searchFilesLoop files searchTextAtStart g
    ⟨o.emitted, !o.panicked⟩

mutual

/-- Pre-order depth-first listing of all nodes of a tree: the document
order in which processAllItems visits nodes (spec wording). -/
def preorder : Node → List Node
  | .mk t d a cs => Node.mk t d a cs :: preorderList cs

def preorderList : List Node → List Node
  | [] => []
  | c :: cs => preorder c ++ preorderList cs

end

mutual

/-- The subtree roots that processAllItems hands to processNode, in the
order it visits them (the Embed Locator, from the guard on main.go:228). -/
def locateEmbeds : Node → List Node
  | .mk t d a cs =>
    (if t == NType.elementNode && d == "div" &&
        hasClass (.mk t d a cs) "chatlog__embed-text" then [Node.mk t d a cs]
     else []) ++ locateEmbedsList cs

def locateEmbedsList : List Node → List Node
  | [] => []
  | c :: cs => locateEmbeds c ++ locateEmbedsList cs

end

mutual

/-- Every node of the tree, the root included, satisfies the predicate. -/
def nodeAll (p : Node → Bool) : Node → Bool
  | .mk t d a cs => p (.mk t d a cs) && nodeListAll p cs

def nodeListAll (p : Node → Bool) : List Node → Bool
  | [] => true
  | c :: cs => nodeAll p c && nodeListAll p cs

end

/-- A text node (no attributes, no children). -/
def textNode (s : String) : Node :=
  .mk .textNode s [] []

/-- A div with one class attribute. -/
def divNode (cls : String) (cs : List Node) : Node :=
  .mk .elementNode "div" [⟨"class", cls⟩] cs

/-- An anchor with an href attribute and descendant text. -/
def anchorNode (href : String) (txt : String) : Node :=
  .mk .elementNode "a" [⟨"href", href⟩] [textNode txt]

/-- An embed root with no title child whose description child holds an
anchor labelled Source. -/
def c2embed : Node :=
  divNode "chatlog__embed-text"
    [divNode "chatlog__embed-description" [anchorNode "http://src.example" "Source"]]

/-- An embed root whose description child holds an anchor with an empty
attribute list. -/
def c4anchorEmbed : Node :=
  divNode "chatlog__embed-text"
    [divNode "chatlog__embed-description"
      [.mk .elementNode "a" [] [textNode "Download"]]]

/-- An embed root whose title child holds a markdown-preserve child with
no child node. -/
def c4titleEmbed : Node :=
  divNode "chatlog__embed-text"
    [divNode "chatlog__embed-title"
      [divNode "chatlog__markdown chatlog__markdown-preserve" []]]

/-- An embed root with no children at all: every field stays empty. -/
def c5embed : Node :=
  divNode "chatlog__embed-text" []

/-- An embed root with title Pack and a description child with one Source
anchor and two Download anchors. -/
def packEmbed : Node :=
  divNode "chatlog__embed-text"
    [divNode "chatlog__embed-title"
      [divNode "chatlog__markdown chatlog__markdown-preserve" [textNode "Pack"]],
     divNode "chatlog__embed-description"
      [anchorNode "http://a.example" "Source",
       anchorNode "http://b.example" "Download v1",
       anchorNode "http://c.example" "Download v2"]]

/-- The record built from packEmbed. -/
def packRecord : SearchResult :=
  { Name := "Pack", DownloadLink := "http://c.example", SourceLink := "http://a.example" }

/-- An embed root with no title child whose fields child holds a Download
anchor. -/
def c2fieldsEmbed : Node :=
  divNode "chatlog__embed-text"
    [divNode "chatlog__embed-fields" [anchorNode "http://d.example" "Download"]]

/-- Run processNode over a list of embed roots in order, a panic aborting
the rest: the net effect of processAllItems on the roots it locates. -/
def runEmbeds : List Node → String → ScanOut
  | [], _ => ⟨[], false⟩
  | n :: ns, g => ScanOut.seq (processNode n g) (runEmbeds ns g)

/-- The exact-match guard of the embed locator, spelled out: an element
node, tag div, and some attribute with key class and value equal (string
equality, not token-set membership) to the embed marker. -/
def embedClassExact (m : Node) : Bool :=
  m.ntype == NType.elementNode && m.data == "div" &&
    m.attr.any (fun a => a.key == "class" && a.val == "chatlog__embed-text")

/-- The href the anchor loop reads from an anchor: the value of its first
attribute (positional access, main.go:310). -/
def anchorHref (a : Node) : String :=
  match a.attr with
  | [] => ""
  | attr0 :: _ => attr0.val

/-- Safety precondition under which extraction cannot panic: every
markdown-preserve node has a child, and every anchor element has at least
one attribute. -/
def extractSafe (m : Node) : Bool :=
  (!(hasClass m "chatlog__markdown chatlog__markdown-preserve") || !m.children.isEmpty) &&
    (!(m.ntype == NType.elementNode && m.data == "a") || !m.attr.isEmpty)

/-- The two anchors of the C6 witness: one whose text holds both cue words
and a later one matching only Download. -/
def c6anchors : List Node :=
  [anchorNode "http://x.example" "Download Source Pack",
   anchorNode "http://y.example" "get Download v2"]

/-- A small corpus: a non-markup file, a markup file and a second markup
file with an unreadable twin between them. -/
def c9files : List FileEntry :=
  [⟨"notes.txt", some packEmbed⟩, ⟨"a.html", some packEmbed⟩,
   ⟨"broken.html", none⟩, ⟨"b.html", some c5embed⟩]

example :
    extractResult c2embed =
      some { Name := "", DownloadLink := "", SourceLink := "http://src.example" } := by
  decide

example : extractResult c4anchorEmbed = none := by decide

example : extractResult c4titleEmbed = none := by decide

example : (processNode c5embed "").emitted =
    [{ Name := "", DownloadLink := "", SourceLink := "" }] := by decide

example :
    extractResult packEmbed =
      some { Name := "Pack", DownloadLink := "http://c.example",
             SourceLink := "http://a.example" } := by decide

example : (processNode packEmbed "pack").emitted.length = 1 := by decide

example : (processNode packEmbed "zzz").emitted = [] := by decide

example : listContains (strToLower "AbC") (strToLower "bc") = true := by decide

example :
    findNodeRecursively (.mk .elementNode "div" [⟨"class", "x"⟩] []) "x" =
      some (.mk .elementNode "div" [⟨"class", "x"⟩] []) := by decide

mutual

theorem nodeRecAux (P : Node → Prop) (Q : List Node → Prop)
    (hnil : Q []) (hcons : ∀ n ns, P n → Q ns → Q (n :: ns))
    (hmk : ∀ t d a cs, Q cs → P (.mk t d a cs)) : ∀ n, P n
  | .mk t d a cs => hmk t d a cs (nodeListRecAux P Q hnil hcons hmk cs)

theorem nodeListRecAux (P : Node → Prop) (Q : List Node → Prop)
    (hnil : Q []) (hcons : ∀ n ns, P n → Q ns → Q (n :: ns))
    (hmk : ∀ t d a cs, Q cs → P (.mk t d a cs)) : ∀ ns, Q ns
  | [] => hnil
  | n :: ns =>
    hcons n ns (nodeRecAux P Q hnil hcons hmk n) (nodeListRecAux P Q hnil hcons hmk ns)

end

theorem ScanOut.seq_nil_left (o : ScanOut) : ScanOut.seq ⟨[], false⟩ o = o := rfl

theorem ScanOut.mem_seq {r : SearchResult} {o o2 : ScanOut}
    (h : r ∈ (o.seq o2).emitted) : r ∈ o.emitted ∨ r ∈ o2.emitted := by
  unfold ScanOut.seq at h
  split at h
  · exact Or.inl h
  · simpa using List.mem_append.mp h

theorem mem_processNode {r : SearchResult} {doc : Node} {g : String}
    (h : r ∈ (processNode doc g).emitted) : matchesFilter r g = true := by
  unfold processNode at h
  split at h
  · simp at h
  · rename_i x hx
    split at h
    · rename_i hm
      simp at h
      exact h ▸ hm
    · simp at h

theorem mem_processAllItems (n : Node) :
    ∀ g r, r ∈ (processAllItems n g).emitted → matchesFilter r g = true := by
  refine nodeRecAux
    (fun n => ∀ g r, r ∈ (processAllItems n g).emitted → matchesFilter r g = true)
    (fun ns => ∀ g r, r ∈ (processAllItemsList ns g).emitted → matchesFilter r g = true)
    ?_ ?_ ?_ n
  · intro g r h
    simp [processAllItemsList] at h
  · intro c cs hc hcs g r h
    unfold processAllItemsList at h
    rcases ScanOut.mem_seq h with h1 | h1
    · exact hc g r h1
    · exact hcs g r h1
  · intro t d a cs hcs g r h
    unfold processAllItems at h
    rcases ScanOut.mem_seq h with h1 | h1
    · split at h1
      · exact mem_processNode h1
      · simp at h1
    · exact hcs g r h1

theorem mem_searchFilesLoop (files : List FileEntry) (snapshot g : String)
    (r : SearchResult) (h : r ∈ (searchFilesLoop files snapshot g).emitted) :
    matchesFilter r g = true := by
  induction files with
  | nil => simp [searchFilesLoop] at h
  | cons f fs ih =>
    unfold searchFilesLoop at h
    split at h
    · rcases ScanOut.mem_seq h with h1 | h1
      · unfold searchFile ParseHTML at h1
        split at h1
        · simp at h1
        · exact mem_processAllItems _ g r h1
      · exact ih h1
    · exact ih h

/-- C1: every record that one search request sends on the output channel
satisfies the filter: the search string in effect, lowercased, is a
contiguous substring of the lowercased Name, SourceLink or DownloadLink,
and a record matching none of the three fields is never sent. -/
theorem C1_filter_correctness (listing : Option (List FileEntry))
    (searchTextAtStart g : String) (r : SearchResult)
    (h : r ∈ (Search listing searchTextAtStart g).emitted) :
    (listContains (strToLower r.Name) (strToLower g) ||
     listContains (strToLower r.SourceLink) (strToLower g) ||
     listContains (strToLower r.DownloadLink) (strToLower g)) = true := by
  unfold Search at h
  split at h
  · simp at h
  · have := mem_searchFilesLoop _ _ _ _ h
    simpa [matchesFilter, hasSearchText] using this

theorem C1_filter_correctness_witness :
    packRecord ∈
      (Search (some [⟨"a.html", some packEmbed⟩]) "pack" "pack").emitted ∧
    (listContains (strToLower packRecord.Name) (strToLower "pack") ||
     listContains (strToLower packRecord.SourceLink) (strToLower "pack") ||
     listContains (strToLower packRecord.DownloadLink) (strToLower "pack")) = true :=
  ⟨by decide, C1_filter_correctness (some [⟨"a.html", some packEmbed⟩]) "pack" "pack"
    packRecord (by decide)⟩

theorem ScanOut.seq_nil_right (o : ScanOut) : ScanOut.seq o ⟨[], false⟩ = o := by
  cases o with
  | mk e p => cases p <;> simp [ScanOut.seq]

theorem ScanOut.seq_assoc (a b c : ScanOut) :
    ScanOut.seq (ScanOut.seq a b) c = ScanOut.seq a (ScanOut.seq b c) := by
  cases a with
  | mk ae ap =>
    cases b with
    | mk be bp =>
      cases ap <;> cases bp <;> simp [ScanOut.seq]

theorem runEmbeds_append (xs ys : List Node) (g : String) :
    runEmbeds (xs ++ ys) g = ScanOut.seq (runEmbeds xs g) (runEmbeds ys g) := by
  induction xs with
  | nil => simp [runEmbeds, ScanOut.seq_nil_left]
  | cons x xs ih => simp [runEmbeds, ih, ScanOut.seq_assoc]

theorem embedClassExact_mk (t : NType) (d : String) (a : List Attribute) (cs : List Node) :
    embedClassExact (.mk t d a cs) =
      (t == NType.elementNode && d == "div" &&
        hasClass (.mk t d a cs) "chatlog__embed-text") := rfl

theorem locateEmbeds_filter (n : Node) :
    locateEmbeds n = (preorder n).filter embedClassExact := by
  refine nodeRecAux (fun n => locateEmbeds n = (preorder n).filter embedClassExact)
    (fun ns => locateEmbedsList ns = (preorderList ns).filter embedClassExact) ?_ ?_ ?_ n
  · rfl
  · intro c cs hc hcs
    simp [locateEmbedsList, preorderList, List.filter_append, hc, hcs]
  · intro t d a cs hcs
    unfold locateEmbeds preorder
    rw [List.filter_cons, hcs, embedClassExact_mk]
    by_cases hg : (t == NType.elementNode && d == "div" &&
        hasClass (.mk t d a cs) "chatlog__embed-text") = true
    · rw [if_pos hg, if_pos hg]
      rfl
    · rw [if_neg hg, if_neg hg]
      rfl

theorem processAllItems_runEmbeds (n : Node) (g : String) :
    processAllItems n g = runEmbeds (locateEmbeds n) g := by
  refine nodeRecAux (fun n => ∀ g, processAllItems n g = runEmbeds (locateEmbeds n) g)
    (fun ns => ∀ g, processAllItemsList ns g = runEmbeds (locateEmbedsList ns) g)
    ?_ ?_ ?_ n g
  · intro g
    rfl
  · intro c cs hc hcs g
    unfold processAllItemsList locateEmbedsList
    rw [runEmbeds_append, hc g, hcs g]
  · intro t d a cs hcs g
    unfold processAllItems locateEmbeds
    rw [runEmbeds_append, hcs g]
    by_cases hg : (t == NType.elementNode && d == "div" &&
        hasClass (.mk t d a cs) "chatlog__embed-text") = true
    · rw [if_pos hg, if_pos hg]
      have h1 : runEmbeds [Node.mk t d a cs] g =
          ScanOut.seq (processNode (.mk t d a cs) g) ⟨[], false⟩ := rfl
      rw [h1, ScanOut.seq_nil_right]
    · rw [if_neg hg, if_neg hg]
      have h1 : runEmbeds ([] : List Node) g = ⟨[], false⟩ := rfl
      rw [h1, ScanOut.seq_nil_left]

/-- C7: the embed locator selects exactly the element nodes with tag div
whose class attribute value is string-equal to the embed marker, visited
in pre-order depth-first document order; a node whose class value merely
contains the marker as a token, such as "chatlog__embed-text extra", is
not selected; and processAllItems hands exactly the located roots, in that
order, to processNode. -/
theorem C7_embed_locator (n : Node) :
    locateEmbeds n = (preorder n).filter embedClassExact ∧
    locateEmbeds (.mk .elementNode "div" [⟨"class", "chatlog__embed-text extra"⟩] []) = [] ∧
    (∀ g, processAllItems n g = runEmbeds (locateEmbeds n) g) :=
  ⟨locateEmbeds_filter n, by decide, fun g => processAllItems_runEmbeds n g⟩

theorem hasClass_findNodeRecursively (n : Node) (c : String) (h : hasClass n c = true) :
    findNodeRecursively n c = some n := by
  cases n with
  | mk t d a cs =>
    unfold findNodeRecursively
    rw [if_pos h]

theorem linkContainerOf_isSome (child : Node) (name : String)
    (h : (hasClass child "chatlog__embed-description" ||
          (hasClass child "chatlog__embed-fields" && name != "")) = true) :
    (linkContainerOf child).isSome = true := by
  unfold linkContainerOf
  cases hf : findNodeRecursively child "chatlog__embed-fields" with
  | some n => rfl
  | none =>
    cases hx : hasClass child "chatlog__embed-fields" with
    | true =>
      rw [hasClass_findNodeRecursively child _ hx] at hf
      cases hf
    | false =>
      have hdc : hasClass child "chatlog__embed-description" = true := by
        simpa [hx] using h
      rw [hasClass_findNodeRecursively child _ hdc]
      rfl

/-- C10: whenever a direct child passes the description-or-fields guard of
processNode, the linkContainer computed by findNodeRecursively (fields
first, then description) is never nil: the guarded child itself carries
one of the two classes and findNodeRecursively tests the root node first,
so the subsequent findNodetypeRecursively call never receives a nil node. -/
theorem C10_linkContainer_isSome (child : Node) (name : String)
    (h : (hasClass child "chatlog__embed-description" ||
          (hasClass child "chatlog__embed-fields" && name != "")) = true) :
    (linkContainerOf child).isSome = true :=
  linkContainerOf_isSome child name h

theorem C10_linkContainer_isSome_witness :
    (hasClass (divNode "chatlog__embed-description" []) "chatlog__embed-description" ||
      (hasClass (divNode "chatlog__embed-description" []) "chatlog__embed-fields" &&
        ("" : String) != "")) = true ∧
    (linkContainerOf (divNode "chatlog__embed-description" [])).isSome = true :=
  ⟨by decide, C10_linkContainer_isSome (divNode "chatlog__embed-description" []) "" (by decide)⟩

/-- C2 counterexample: an embed subtree with no title child whose
description child holds a Source anchor yields a record with empty Name
and non-empty SourceLink, so the description scan is not gated on a found
title (in Go, && binds tighter than ||, so the Name guard applies only to
the fields branch). -/
theorem C2_counterexample :
    extractResult c2embed =
      some { Name := "", DownloadLink := "", SourceLink := "http://src.example" } ∧
    ("http://src.example" : String) ≠ "" := by
  exact ⟨by decide, by decide⟩

theorem extractLoop_no_title_desc (cs : List Node)
    (hdesc : ∀ c ∈ cs, hasClass c "chatlog__embed-description" = false)
    (htitle : ∀ c ∈ cs, hasClass c "chatlog__embed-title" = false) :
    extractLoop cs { Name := "", DownloadLink := "", SourceLink := "" } =
      some { Name := "", DownloadLink := "", SourceLink := "" } := by
  induction cs with
  | nil => rfl
  | cons c cs ih =>
    unfold extractLoop
    rw [htitle c (List.mem_cons_self c cs), hdesc c (List.mem_cons_self c cs)]
    simp only [Bool.false_eq_true, if_false, Bool.false_or]
    have hbne : (({ Name := "", DownloadLink := "", SourceLink := ""} : SearchResult).Name != "")
        = false := by decide
    simp only [hbne, Bool.and_false, Bool.false_eq_true, if_false]
    exact ih (fun x hx => hdesc x (List.mem_cons_of_mem c hx))
      (fun x hx => htitle x (List.mem_cons_of_mem c hx))

/-- C2 amended: the Name guard applies only to the fields branch; a
description child is scanned regardless of the title.  For every embed
subtree none of whose direct children carries the title marker (so no
title is ever resolved) and none of whose direct children carries the
description marker, the produced record has all fields empty regardless of
any fields child present: the anchors of a fields child are never scanned
when no title was found. -/
theorem C2_fields_gate (doc : Node)
    (htitle : ∀ child ∈ doc.children, hasClass child "chatlog__embed-title" = false)
    (hdesc : ∀ child ∈ doc.children, hasClass child "chatlog__embed-description" = false) :
    extractResult doc = some { Name := "", DownloadLink := "", SourceLink := "" } :=
  extractLoop_no_title_desc doc.children hdesc htitle

theorem C2_fields_gate_witness :
    (∀ child ∈ c2fieldsEmbed.children, hasClass child "chatlog__embed-title" = false) ∧
    extractResult c2fieldsEmbed = some { Name := "", DownloadLink := "", SourceLink := "" } :=
  ⟨by decide, C2_fields_gate c2fieldsEmbed (by decide) (by decide)⟩

theorem listContains_nil (l : List Char) : listContains l [] = true := by
  cases l <;> rfl

theorem hasSearchText_empty (t : String) : hasSearchText t "" = true := by
  unfold hasSearchText
  have h : strToLower "" = [] := rfl
  rw [h, listContains_nil]

/-- C5 counterexample: with the empty search string, the record all of
whose fields are empty is emitted after all: the empty string is a
substring of the empty string, so strings.Contains is true even on empty
fields, and the filter passes. -/
theorem C5_counterexample :
    (processNode c5embed "").emitted =
      [{ Name := "", DownloadLink := "", SourceLink := "" }] := by
  decide

/-- C5 amended: with the empty search string, every record the extractor
builds without panicking is emitted, whether or not any of its three
fields is non-empty (the empty string matches every field, empty fields
included). -/
theorem C5_empty_search (doc : Node) (r : SearchResult)
    (h : extractResult doc = some r) : (processNode doc "").emitted = [r] := by
  have hm : matchesFilter r "" = true := by
    unfold matchesFilter
    rw [hasSearchText_empty]
    simp
  simp [processNode, h, hm]

theorem C5_empty_search_witness :
    extractResult packEmbed = some packRecord ∧
    (processNode packEmbed "").emitted = [packRecord] :=
  ⟨by decide, C5_empty_search packEmbed packRecord (by decide)⟩

/-- C3: when the target folder cannot be listed, Search returns before the
close on main.go:57, so the output channel is never closed, contrary to
the claim; when the folder lists but every document fails to open or
parse, the loop falls through and the channel is closed with zero
results. -/
theorem C3_stream_closure :
    Search none "a" "a" = { emitted := [], closed := false } ∧
    Search (some [⟨"a.html", none⟩, ⟨"b.html", none⟩]) "a" "a" =
      { emitted := [], closed := true } := by
  exact ⟨by decide, by decide⟩

/-- C8: the snapshot taken on main.go:40 is passed to ParseHTML, which
ignores it (first conjunct: the emitted records do not depend on the
searchText parameter); the filter instead reads the shared global at scan
time, so two runs over the same corpus with the same initiation-time
string "pack" emit different records when the global holds a different
value while the scan runs (second conjunct). -/
theorem C8_snapshot_not_immutable :
    (∀ (content : Option Node) (s1 s2 g : String),
      ParseHTML content s1 g = ParseHTML content s2 g) ∧
    (Search (some [⟨"a.html", some packEmbed⟩]) "pack" "pack").emitted ≠
      (Search (some [⟨"a.html", some packEmbed⟩]) "pack" "zzz").emitted := by
  constructor
  · intro content s1 s2 g
    cases content <;> rfl
  · decide

theorem getLast?_cons_elim {α β : Type _} (l : List α) (a : α) (d : β) (f : α → β) :
    ((a :: l).getLast?).elim d f = (l.getLast?).elim (f a) f := by
  induction l generalizing a d with
  | nil => simp
  | cons b l ih =>
    rw [List.getLast?_cons_cons, ih b d, ih b (f a)]

theorem filterLast_step {α β : Type _} (p : α → Bool) (a : α) (l : List α) (d : β)
    (f : α → β) :
    (((a :: l).filter p).getLast?).elim d f =
      ((l.filter p).getLast?).elim (if p a then f a else d) f := by
  rw [List.filter_cons]
  by_cases hp : p a = true
  · rw [if_pos hp, if_pos hp, getLast?_cons_elim]
  · rw [if_neg hp, if_neg hp]

theorem anchorLoop_cons (a : Node) (rest : List Node) (attr0 : Attribute)
    (attrs : List Attribute) (hattr : a.attr = attr0 :: attrs) (src dl : String) :
    anchorLoop (a :: rest) src dl =
      anchorLoop rest (if hasResurivelyText a "Source" then attr0.val else src)
        (if hasResurivelyText a "Download" then attr0.val else dl) := by
  simp only [anchorLoop, hattr]

/-- C6: the anchor loop processes the collected anchors in document order;
an anchor whose descendant text contains Source case-insensitively writes
its href (the value of its first attribute) to SourceLink and,
independently, one whose text contains Download writes it to DownloadLink;
hence each field ends up equal to the href of the last matching anchor in
document order (the initial value when none matches), a single anchor
containing both words fills both fields with the same href, and later
matches silently overwrite earlier ones. -/
theorem C6_anchor_assignment (anchors : List Node) (src0 dl0 : String)
    (h : ∀ a ∈ anchors, a.attr ≠ []) :
    anchorLoop anchors src0 dl0 = some
      (((anchors.filter (fun a => hasResurivelyText a "Source")).getLast?).elim
        src0 anchorHref,
       ((anchors.filter (fun a => hasResurivelyText a "Download")).getLast?).elim
        dl0 anchorHref) := by
  induction anchors generalizing src0 dl0 with
  | nil => rfl
  | cons a rest ih =>
    obtain ⟨attr0, attrs, hattr⟩ : ∃ x xs, a.attr = x :: xs := by
      cases ha : a.attr with
      | nil => exact absurd ha (h a (List.mem_cons_self a rest))
      | cons x xs => exact ⟨x, xs, rfl⟩
    have hhref : anchorHref a = attr0.val := by
      unfold anchorHref
      rw [hattr]
    rw [anchorLoop_cons a rest attr0 attrs hattr,
      ih _ _ (fun x hx => h x (List.mem_cons_of_mem a hx)),
      filterLast_step, filterLast_step, hhref]

theorem C6_anchor_assignment_witness :
    (∀ a ∈ c6anchors, a.attr ≠ []) ∧
    anchorLoop c6anchors "" "" = some ("http://x.example", "http://y.example") :=
  ⟨by decide, (C6_anchor_assignment c6anchors "" "" (by decide)).trans (by decide)⟩

theorem searchFilesLoop_cons (f : FileEntry) (fs : List FileEntry) (s g : String) :
    searchFilesLoop (f :: fs) s g =
      if strHasSuffix f.name ".html" = true then
        ScanOut.seq (searchFile f s g) (searchFilesLoop fs s g)
      else searchFilesLoop fs s g := by
  simp only [searchFilesLoop]

theorem Search_some (files : List FileEntry) (s g : String) :
    Search (some files) s g =
      ⟨(searchFilesLoop files s g).emitted, !(searchFilesLoop files s g).panicked⟩ := rfl

theorem searchFilesLoop_filter (files : List FileEntry) (s g : String) :
    searchFilesLoop files s g =
      searchFilesLoop (files.filter (fun f => strHasSuffix f.name ".html")) s g := by
  induction files with
  | nil => rfl
  | cons f fs ih =>
    rw [List.filter_cons]
    by_cases hf : strHasSuffix f.name ".html" = true
    · rw [if_pos hf, searchFilesLoop_cons, searchFilesLoop_cons, if_pos hf, if_pos hf, ih]
    · rw [if_neg hf, searchFilesLoop_cons, if_neg hf, ih]

theorem searchFilesLoop_skip (pre post : List FileEntry) (nm s g : String) :
    searchFilesLoop (pre ++ ⟨nm, none⟩ :: post) s g =
      searchFilesLoop (pre ++ post) s g := by
  induction pre with
  | nil =>
    simp only [List.nil_append]
    rw [searchFilesLoop_cons]
    by_cases hf : strHasSuffix nm ".html" = true
    · rw [if_pos hf]
      have hsf : searchFile ⟨nm, none⟩ s g = ⟨[], false⟩ := rfl
      rw [hsf, ScanOut.seq_nil_left]
    · rw [if_neg hf]
  | cons f fs ih =>
    simp only [List.cons_append]
    rw [searchFilesLoop_cons, searchFilesLoop_cons, ih]

theorem searchFilesLoop_flatten (files : List FileEntry) (s g : String)
    (h : ∀ f ∈ files, (searchFile f s g).panicked = false) :
    searchFilesLoop files s g =
      ⟨((files.filter (fun f => strHasSuffix f.name ".html")).map
          (fun f => (searchFile f s g).emitted)).flatten, false⟩ := by
  induction files with
  | nil => rfl
  | cons f fs ih =>
    rw [List.filter_cons]
    by_cases hf : strHasSuffix f.name ".html" = true
    · rw [if_pos hf, searchFilesLoop_cons, if_pos hf,
        ih (fun x hx => h x (List.mem_cons_of_mem f hx))]
      simp [ScanOut.seq, h f (List.mem_cons_self f fs)]
    · rw [if_neg hf, searchFilesLoop_cons, if_neg hf]
      exact ih (fun x hx => h x (List.mem_cons_of_mem f hx))

/-- C9: the document loader processes exactly the directory entries whose
name ends in ".html" (case-sensitive suffix), in listing order: entries
without the suffix are irrelevant to the outcome (first conjunct), a file
that cannot be opened is skipped while every other entry is still
processed (second conjunct), and when no processed document panics the
emitted stream is the in-order concatenation of the per-eligible-file
emissions and the channel is closed (third conjunct). -/
theorem C9_document_loader (files pre post : List FileEntry) (nm s g : String) :
    Search (some files) s g =
      Search (some (files.filter (fun f => strHasSuffix f.name ".html"))) s g ∧
    Search (some (pre ++ ⟨nm, none⟩ :: post)) s g = Search (some (pre ++ post)) s g ∧
    ((∀ f ∈ files, (searchFile f s g).panicked = false) →
      Search (some files) s g =
        ⟨((files.filter (fun f => strHasSuffix f.name ".html")).map
            (fun f => (searchFile f s g).emitted)).flatten, true⟩) := by
  refine ⟨?_, ?_, ?_⟩
  · rw [Search_some, Search_some, searchFilesLoop_filter]
  · rw [Search_some, Search_some, searchFilesLoop_skip]
  · intro h
    rw [Search_some, searchFilesLoop_flatten files s g h]
    rfl

theorem C9_document_loader_witness :
    (∀ f ∈ c9files, (searchFile f "pack" "pack").panicked = false) ∧
    Search (some c9files) "pack" "pack" = ⟨[packRecord], true⟩ :=
  ⟨by decide,
    ((C9_document_loader c9files [] [] "x" "pack" "pack").2.2 (by decide)).trans (by decide)⟩

theorem nodeListAll_mem (p : Node → Bool) (cs : List Node)
    (h : nodeListAll p cs = true) : ∀ c ∈ cs, nodeAll p c = true := by
  induction cs with
  | nil =>
    intro c hc
    cases hc
  | cons x xs ih =>
    simp only [nodeListAll, Bool.and_eq_true] at h
    intro c hc
    rcases List.mem_cons.mp hc with rfl | hc
    · exact h.1
    · exact ih h.2 c hc

theorem nodeAll_head (p : Node → Bool) (n : Node) (h : nodeAll p n = true) :
    p n = true := by
  cases n with
  | mk t d a cs =>
    simp only [nodeAll, Bool.and_eq_true] at h
    exact h.1

theorem nodeAll_children (p : Node → Bool) (n : Node) (h : nodeAll p n = true) :
    ∀ c ∈ n.children, nodeAll p c = true := by
  cases n with
  | mk t d a cs =>
    simp only [nodeAll, Bool.and_eq_true] at h
    exact nodeListAll_mem p cs h.2

theorem findNodetype_all (p : Node → Bool) (ty : String) (n : Node) :
    nodeAll p n = true → ∀ m ∈ findNodetypeRecursively n ty, nodeAll p m = true := by
  refine nodeRecAux
    (fun n => nodeAll p n = true →
      ∀ m ∈ findNodetypeRecursively n ty, nodeAll p m = true)
    (fun ns => nodeListAll p ns = true →
      ∀ m ∈ findNodetypeRecursivelyList ns ty, nodeAll p m = true) ?_ ?_ ?_ n
  · intro _ m hm
    cases hm
  · intro c cs hc hcs hall m hm
    simp only [nodeListAll, Bool.and_eq_true] at hall
    simp only [findNodetypeRecursivelyList, List.mem_append] at hm
    rcases hm with hm | hm
    · exact hc hall.1 m hm
    · exact hcs hall.2 m hm
  · intro t d a cs hcs hall m hm
    simp only [findNodetypeRecursively] at hm
    split at hm
    · simp only [List.mem_singleton] at hm
      subst hm
      exact hall
    · have h2 : nodeListAll p cs = true := by
        simp only [nodeAll, Bool.and_eq_true] at hall
        exact hall.2
      exact hcs h2 m hm

theorem findNodetype_shape (ty : String) (n : Node) :
    ∀ m ∈ findNodetypeRecursively n ty,
      (m.ntype == NType.elementNode && m.data == ty) = true := by
  refine nodeRecAux
    (fun n => ∀ m ∈ findNodetypeRecursively n ty,
      (m.ntype == NType.elementNode && m.data == ty) = true)
    (fun ns => ∀ m ∈ findNodetypeRecursivelyList ns ty,
      (m.ntype == NType.elementNode && m.data == ty) = true) ?_ ?_ ?_ n
  · intro m hm
    cases hm
  · intro c cs hc hcs m hm
    simp only [findNodetypeRecursivelyList, List.mem_append] at hm
    rcases hm with hm | hm
    · exact hc m hm
    · exact hcs m hm
  · intro t d a cs hcs m hm
    simp only [findNodetypeRecursively] at hm
    split at hm
    · rename_i hcond
      simp only [List.mem_singleton] at hm
      subst hm
      exact hcond
    · exact hcs m hm

theorem findNode_all (p : Node → Bool) (cls : String) (n : Node) :
    nodeAll p n = true →
      ∀ m, findNodeRecursively n cls = some m → nodeAll p m = true := by
  refine nodeRecAux
    (fun n => nodeAll p n = true →
      ∀ m, findNodeRecursively n cls = some m → nodeAll p m = true)
    (fun ns => nodeListAll p ns = true →
      ∀ m, findNodeRecursivelyList ns cls = some m → nodeAll p m = true) ?_ ?_ ?_ n
  · intro _ m hm
    cases hm
  · intro c cs hc hcs hall m hm
    simp only [nodeListAll, Bool.and_eq_true] at hall
    simp only [findNodeRecursivelyList] at hm
    split at hm
    · rename_i heq
      cases hm
      exact hc hall.1 _ heq
    · exact hcs hall.2 m hm
  · intro t d a cs hcs hall m hm
    simp only [findNodeRecursively] at hm
    split at hm
    · cases hm
      exact hall
    · have h2 : nodeListAll p cs = true := by
        simp only [nodeAll, Bool.and_eq_true] at hall
        exact hall.2
      exact hcs h2 m hm

theorem anchorLoop_isSome (anchors : List Node) (src dl : String)
    (h : ∀ a ∈ anchors, a.attr ≠ []) : (anchorLoop anchors src dl).isSome = true := by
  induction anchors generalizing src dl with
  | nil => rfl
  | cons a rest ih =>
    obtain ⟨x, xs, hattr⟩ : ∃ x xs, a.attr = x :: xs := by
      cases ha : a.attr with
      | nil => exact absurd ha (h a (List.mem_cons_self a rest))
      | cons x xs => exact ⟨x, xs, rfl⟩
    rw [anchorLoop_cons a rest x xs hattr]
    exact ih _ _ (fun b hb => h b (List.mem_cons_of_mem a hb))

theorem titleChildScan_isSome (cs : List Node) (cur : String)
    (h : ∀ c ∈ cs, hasClass c "chatlog__markdown chatlog__markdown-preserve" = true →
      c.children ≠ []) :
    (titleChildScan cs cur).isSome = true := by
  induction cs generalizing cur with
  | nil => rfl
  | cons c cs ih =>
    simp only [titleChildScan]
    split
    · rename_i hc
      cases hcc : c.children with
      | nil => exact absurd hcc (h c (List.mem_cons_self c cs) hc)
      | cons y ys =>
        simp only [hcc]
        exact ih y.data (fun x hx => h x (List.mem_cons_of_mem c hx))
    · exact ih cur (fun x hx => h x (List.mem_cons_of_mem c hx))

theorem descScan_isSome (child : Node) (acc : SearchResult)
    (hall : nodeAll extractSafe child = true)
    (hguard : (hasClass child "chatlog__embed-description" ||
      (hasClass child "chatlog__embed-fields" && acc.Name != "")) = true) :
    (descScan child acc).isSome = true := by
  cases hlc : linkContainerOf child with
  | none =>
    have hsome := linkContainerOf_isSome child acc.Name hguard
    rw [hlc] at hsome
    simp at hsome
  | some lc =>
    have hlcall : nodeAll extractSafe lc = true := by
      unfold linkContainerOf at hlc
      split at hlc
      · rename_i heq
        cases hlc
        exact findNode_all extractSafe _ child hall _ heq
      · exact findNode_all extractSafe _ child hall lc hlc
    have hanch : ∀ a ∈ findNodetypeRecursively lc "a", a.attr ≠ [] := by
      intro a ha
      have h1 := findNodetype_all extractSafe "a" lc hlcall a ha
      have h2 := findNodetype_shape "a" lc a ha
      have h3 := nodeAll_head _ _ h1
      unfold extractSafe at h3
      intro hemp
      rw [h2, hemp] at h3
      simp at h3
    obtain ⟨pr, hres⟩ := Option.isSome_iff_exists.mp
      (anchorLoop_isSome (findNodetypeRecursively lc "a")
        acc.SourceLink acc.DownloadLink hanch)
    obtain ⟨s1, s2⟩ := pr
    simp only [descScan, hlc, hres, Option.isSome_some]

theorem extractLoop_isSome (cs : List Node) (acc : SearchResult)
    (h : ∀ c ∈ cs, nodeAll extractSafe c = true) :
    (extractLoop cs acc).isSome = true := by
  induction cs generalizing acc with
  | nil => rfl
  | cons child rest ih =>
    simp only [extractLoop]
    have hname : (if hasClass child "chatlog__embed-title" = true
        then titleChildScan child.children acc.Name else some acc.Name).isSome = true := by
      split
      · apply titleChildScan_isSome
        intro c hc hclass
        have h1 := nodeAll_children extractSafe child (h child (List.mem_cons_self child rest)) c hc
        have h2 := nodeAll_head _ _ h1
        unfold extractSafe at h2
        intro hemp
        rw [hclass, hemp] at h2
        simp at h2
      · rfl
    obtain ⟨name, hn⟩ := Option.isSome_iff_exists.mp hname
    simp only [hn]
    have hdesc : (if (hasClass child "chatlog__embed-description" ||
        (hasClass child "chatlog__embed-fields" &&
          ({ acc with Name := name } : SearchResult).Name != "")) = true
        then descScan child { acc with Name := name }
        else some { acc with Name := name }).isSome = true := by
      split
      · rename_i hguard
        exact descScan_isSome child _ (h child (List.mem_cons_self child rest)) hguard
      · rfl
    obtain ⟨acc2, h2⟩ := Option.isSome_iff_exists.mp hdesc
    simp only [h2]
    exact ih acc2 (fun c hc => h c (List.mem_cons_of_mem child hc))

/-- C4 counterexample: an anchor with an empty attribute list, and a
markdown-preserve element with no child node, do not degrade the field to
empty: extraction aborts (an index-out-of-range or nil-dereference panic
in Go), and the request that hits it ends with nothing emitted and the
channel never closed. -/
theorem C4_counterexample :
    extractResult c4anchorEmbed = none ∧ extractResult c4titleEmbed = none ∧
    Search (some [⟨"a.html", some c4anchorEmbed⟩]) "x" "x" =
      { emitted := [], closed := false } :=
  ⟨by decide, by decide, by decide⟩

/-- C4 amended: extraction is total on every embed subtree in which each
markdown-preserve node has a child and each anchor element has at least
one attribute; a missing class marker or a missing matched child then
degrades the corresponding field to empty rather than failing.  Without
that proviso the two dereferences of main.go:289 and main.go:310 abort
extraction. -/
theorem C4_extraction_total (doc : Node) (h : nodeAll extractSafe doc = true) :
    (extractResult doc).isSome = true :=
  extractLoop_isSome doc.children _ (nodeAll_children extractSafe doc h)

theorem C4_extraction_total_witness :
    nodeAll extractSafe packEmbed = true ∧ (extractResult packEmbed).isSome = true :=
  ⟨by decide, C4_extraction_total packEmbed (by decide)⟩
